import Mathlib

/- Verification of the quota-aware scheduler and the price cache of the
   Crypto-Notification repository (Python sources under src/).

   Modelling conventions, used throughout:
   * Python floats are modelled by exact rationals (ℚ).  Every concrete
     input appearing in a theorem below uses dyadic values (0.5, 0.1875,
     0.0625, 0.25, 0.125, whole numbers), on which IEEE-754 double
     arithmetic is exact, so the concrete evaluations agree with the
     Python float semantics bit for bit.
   * Python ints are ℤ; Python `//` is `Int.fdiv` (floor division).
   * Python dicts are association lists with in-place value overwrite,
     which reproduces the insertion-order iteration semantics of CPython
     dicts (`dictInsert` / `dictGet` below).
   * Fallible code returns `Except String α` (the `String` is the Python
     exception rendered as a message) or pairs a result with
     `Option String`.
   * `list.sort(reverse=True)` on a list of pairwise-distinct tuples is
     the unique permutation sorted descending by the lexicographic tuple
     order; it is modelled by `List.insertionSort` with the reflexive
     descending order `descLexGe` (uniqueness of sorted permutations of
     duplicate-free lists makes any correct sort agree). -/

deriving instance DecidableEq for Except

unseal Rat.add Rat.mul Rat.sub Rat.inv

namespace CryptoNotify

/-! ## Python string primitives

Modelled character-wise over the string's character list (`String.data`)
so concrete inputs evaluate inside the kernel; on the ASCII tokens the
repository handles this agrees with Python's `str.upper`, `str.lower`,
`str.strip` and `in`. -/

/-- Python `s.upper()`. -/
def pyUpper (s : String) : String := ⟨s.data.map Char.toUpper⟩

/-- Python `s.lower()`. -/
def pyLower (s : String) : String := ⟨s.data.map Char.toLower⟩

/-- Python `s.strip()`. -/
def pyStrip (s : String) : String :=
  ⟨((s.data.dropWhile (fun c => c.isWhitespace)).reverse.dropWhile
      (fun c => c.isWhitespace)).reverse⟩

/-- Python `ch in s` for a single character. -/
def pyContainsChar (s : String) (c : Char) : Bool := s.data.contains c

/-! ## Scheduler: `src/schedulertimer.py`

`generate_schedule` (lines 51-142).  The claims under verification concern
the daily request count, the per-window allocation counts (lines 86-93)
and the error behaviour; the slot-time construction (lines 95-133), which
no claim mentions, is not embedded. -/

/-- The fixed UTC windows (`WINDOWS_UTC`, lines 34-40). -/
def WINDOWS_UTC : List (ℕ × ℕ) := [(7, 12), (12, 16), (16, 20), (20, 24), (0, 7)]

/-- `DEFAULT_WEIGHTS = [0.1875, 0.5, 0.1875, 0.0625, 0.0625]` (line 42);
all five values are dyadic, hence exact as doubles and as rationals. -/
def DEFAULT_WEIGHTS : List ℚ := [3/16, 1/2, 3/16, 1/16, 1/16]

/-- Descending lexicographic (reflexive) order on `(fraction, index)`
pairs: `a` may precede `b` in the result of Python
`fracs.sort(reverse=True)`. -/
def descLexGe (a b : ℚ × ℕ) : Prop := b.1 < a.1 ∨ (a.1 = b.1 ∧ b.2 ≤ a.2)

/-- Strict version of `descLexGe`, as a Bool: `a` sorts strictly before
`b` in descending tuple order. -/
def descLexGtB (a b : ℚ × ℕ) : Bool :=
  decide (b.1 < a.1) || (decide (a.1 = b.1) && decide (b.2 < a.2))

instance : DecidableRel descLexGe := fun _ _ => inferInstanceAs (Decidable (_ ∨ _))

instance : IsTotal (ℚ × ℕ) descLexGe where
  total a b := by
    rcases lt_trichotomy a.1 b.1 with h | h | h
    · exact Or.inr (Or.inl h)
    · rcases le_total a.2 b.2 with h2 | h2
      · exact Or.inr (Or.inr ⟨h.symm, h2⟩)
      · exact Or.inl (Or.inr ⟨h, h2⟩)
    · exact Or.inl (Or.inl h)

instance : IsTrans (ℚ × ℕ) descLexGe where
  trans a b c hab hbc := by
    rcases hab with h1 | ⟨he1, hl1⟩
    · rcases hbc with h2 | ⟨he2, _⟩
      · exact Or.inl (h2.trans h1)
      · exact Or.inl (he2 ▸ h1)
    · rcases hbc with h2 | ⟨he2, hl2⟩
      · exact Or.inl (he1 ▸ h2)
      · exact Or.inr ⟨he1.trans he2, hl2.trans hl1⟩

/-- `raw = [w * daily_requests for w in weights]` (line 86). -/
def rawOf (weights : List ℚ) (daily : ℤ) : List ℚ := weights.map (fun w => w * (daily : ℚ))

/-- `counts = [int(math.floor(x)) for x in raw]` (line 87). -/
def baseOf (weights : List ℚ) (daily : ℤ) : List ℤ :=
  (rawOf weights daily).map (fun x => ⌊x⌋)

/-- `deficit = daily_requests - sum(counts)` (line 88). -/
def deficitOf (weights : List ℚ) (daily : ℤ) : ℤ := daily - (baseOf weights daily).sum

/-- `fracs = [(raw[i] - counts[i], i) for i in range(len(raw))]` (line 90). -/
def fracsOf (weights : List ℚ) (daily : ℤ) : List (ℚ × ℕ) :=
  (List.range (rawOf weights daily).length).map
    (fun i => ((rawOf weights daily).getD i 0 - ((baseOf weights daily).getD i 0 : ℤ), i))

/-- `counts[idx] += 1` (line 93): in-place increment of entry `i`. -/
def bump (cs : List ℤ) (i : ℕ) : List ℤ := cs.set i (cs.getD i 0 + 1)

/-- The per-window allocation computed at lines 86-93 of
`generate_schedule`: floors of `weight*daily`, then one extra unit for
each of the first `deficit` entries of the descending-sorted
`(fraction, index)` list. -/
def allocate_counts (weights : List ℚ) (daily : ℤ) : List ℤ :=
  if 0 < deficitOf weights daily then
    (((fracsOf weights daily).insertionSort descLexGe).take
        (deficitOf weights daily).toNat).foldl (fun cs p => bump cs p.2) (baseOf weights daily)
  else baseOf weights daily

/-- Result record of `generate_schedule` (the slot-time fields, which no
claim concerns, are omitted; `counts` is the `requests` column of the
`windows` output, one entry per window). -/
structure Schedule where
  daily_requests : ℤ
  monthly_used : ℤ
  residual_monthly : ℤ
  counts : List ℤ
deriving DecidableEq, Repr

/-- `generate_schedule(limit_per_month, days_in_month, weights)`
(lines 51-93 of src/schedulertimer.py; `tz_out` and `use_all_budget` do
not affect any modelled field).  The only validation in the source is the
`assert len(weights) == len(WINDOWS_UTC)` at line 71; `days_in_month = 0`
raises `ZeroDivisionError` at the floor division on line 73.  There is no
check of the sign of the budget or of the sum of the weights. -/
def generate_schedule (limit_per_month : ℤ) (days_in_month : ℤ)
    (weights : List ℚ) : Except String Schedule :=
  if weights.length ≠ WINDOWS_UTC.length then
    .error "AssertionError: weights length mismatch"
  else if days_in_month = 0 then
    .error "ZeroDivisionError: integer division or modulo by zero"
  else
    let base_daily := Int.fdiv limit_per_month days_in_month
    .ok { daily_requests := base_daily
          monthly_used := base_daily * days_in_month
          residual_monthly := limit_per_month - base_daily * days_in_month
          counts := allocate_counts weights base_daily }

/-! Specification-side allocation (from the words of the claims, for the
refinement comparison): Hamilton largest-remainder apportionment.  Window
`i` receives an extra unit exactly when fewer than `deficit` windows beat
it, where `j` beats `i` when `j`'s fractional remainder is larger, or the
remainders are equal and the tie-break prefers `j`. -/

/-- Fractional remainder of window `i` (`raw[i] - floor(raw[i])`). -/
def fracAt (weights : List ℚ) (daily : ℤ) (i : ℕ) : ℚ :=
  (rawOf weights daily).getD i 0 - ((baseOf weights daily).getD i 0 : ℤ)

/-- Number of windows beating window `i` under ties-to-the-SMALLER-index
rule (the rule asserted by the claim: on equal remainders the smaller
index receives its unit first, i.e. `j` beats `i` when `j < i`). -/
def rankAsc (weights : List ℚ) (daily : ℤ) (i : ℕ) : ℕ :=
  ((List.range weights.length).filter (fun j =>
    decide (fracAt weights daily i < fracAt weights daily j) ||
      (decide (fracAt weights daily j = fracAt weights daily i) && decide (j < i)))).length

/-- Number of windows beating window `i` under ties-to-the-LARGER-index
rule (`j` beats `i` when `j > i`). -/
def rankDesc (weights : List ℚ) (daily : ℤ) (i : ℕ) : ℕ :=
  ((List.range weights.length).filter (fun j =>
    decide (fracAt weights daily i < fracAt weights daily j) ||
      (decide (fracAt weights daily j = fracAt weights daily i) && decide (i < j)))).length

/-- Largest-remainder apportionment with ties broken by window index
ascending — the allocation rule as the claim states it. -/
def specAllocAsc (weights : List ℚ) (daily : ℤ) : List ℤ :=
  (List.range weights.length).map (fun i =>
    (baseOf weights daily).getD i 0 +
      if (rankAsc weights daily i : ℤ) < deficitOf weights daily then 1 else 0)

/-- Largest-remainder apportionment with ties broken by window index
descending — the allocation rule the code actually implements. -/
def specAllocDesc (weights : List ℚ) (daily : ℤ) : List ℤ :=
  (List.range weights.length).map (fun i =>
    (baseOf weights daily).getD i 0 +
      if (rankDesc weights daily i : ℤ) < deficitOf weights daily then 1 else 0)

/-! ## Tools: `src/tools/tools.py` -/

/-- `is_between(x, now, triger)` (tools.py lines 167-173). -/
def is_between (x now : ℚ) (triger : String) : Bool :=
  if triger = ">" ∧ x < now then true
  else if triger = "<" ∧ now < x then true
  else false

/-- `get_simvol(prev, price)` (tools.py lines 175-181): the directional
change marker. -/
def get_simvol (prev price : ℚ) : String :=
  if prev < price then "↗️"
  else if price < prev then "↘️"
  else "⏺️"

/-- A Python runtime value, as far as the modelled calls need: numbers
and strings. -/
inductive PyVal where
  | num (q : ℚ)
  | str (s : String)
deriving DecidableEq, Repr

/-- The parameter list of `is_between` (tools.py line 167). -/
def is_between_params : List String := ["x", "now", "triger"]

/-- Python call semantics for `is_between`: positional arguments are
matched against the three parameters; a call whose argument count
differs from the parameter count raises `TypeError` before the body
runs (the function has no defaults and no starred parameters). -/
def call_is_between (args : List PyVal) : Except String Bool :=
  if args.length = is_between_params.length then
    match args with
    | [PyVal.num x, PyVal.num now, PyVal.str t] => .ok (is_between x now t)
    | _ => .error "TypeError: unsupported comparison operand types"
  else
    .error "TypeError: is_between() takes 3 positional arguments but 4 were given"

/-! ## Data model: `src/control/data_models.py` -/

/-- `CryptoBrief` (data_models.py lines 157-169), the frozen dataclass
cached per coin.  The `previous_price` annotation says `float`, but the
annotation is not enforced at runtime and `find_coin` stores `None`
there, so the field is modelled as `Option ℚ`; the sentinel `-1` is
`some (-1)`. -/
structure CryptoBrief where
  id : ℤ
  name : String
  symbol : String
  price : ℚ
  convert_currency : String
  last_updated : String
  price_change : String
  previous_price : Option ℚ
deriving DecidableEq, Repr

/-- The field list of the `CryptoBrief` dataclass; every field is
required (none has a default). -/
def cryptoBriefFields : List String :=
  ["id", "name", "symbol", "price", "convert_currency", "last_updated",
   "price_change", "previous_price"]

/-- The keyword arguments supplied by the `CryptoBrief(...)` call in the
`find_coin` fallback of `add_symbols_to_cache`
(api_coinmarketcap.py lines 718-726): `previous_price` is absent. -/
def fallbackCtorArgs : List String :=
  ["id", "name", "symbol", "price", "convert_currency", "last_updated", "price_change"]

/-- Python dataclass construction succeeds only when every required
field receives an argument. -/
def dataclassArgsOk (provided required : List String) : Bool :=
  required.all (fun f => provided.contains f)

/-- `AlertCrypto` (data_models.py lines 173-182) without the `date`
field, which the alert evaluation never reads. -/
structure AlertCrypto where
  id : ℤ
  user_id : ℤ
  symbol : String
  price : ℚ
  trigger : String
  coment : String
deriving DecidableEq, Repr

/-! ## Python dicts as association lists

CPython dicts keep insertion order; overwriting a key keeps its
position.  `dictInsert`/`dictGet` reproduce this. -/

/-- `m[k] = v`: replace in place when the key exists, else append. -/
def dictInsert {α : Type} : List (String × α) → String → α → List (String × α)
  | [], k, v => [(k, v)]
  | p :: rest, k, v => if p.1 = k then (k, v) :: rest else p :: dictInsert rest k v

/-- `m.get(k)`: the value at the first (in a dict: only) entry with key
`k`. -/
def dictGet {α : Type} : List (String × α) → String → Option α
  | [], _ => none
  | p :: rest, k => if p.1 = k then some p.2 else dictGet rest k

/-! ## Price cache: `src/api_coinmarketcap.py` -/

/-- `{cb.symbol: i for i, cb in enumerate(tuple)}` starting at index `i`
with accumulator `m`. -/
def buildIndexFrom : ℕ → List (String × ℕ) → List CryptoBrief → List (String × ℕ)
  | _, m, [] => m
  | i, m, c :: rest => buildIndexFrom (i + 1) (dictInsert m c.symbol i) rest

/-- The `_index_by_symbol` dict rebuilt from a cache tuple — every write
site of the cache (lines 351-356, 451-456, 747-751) rebuilds the index
exactly this way, so the stored index is always this function of the
stored tuple. -/
def buildIndex (cache : List CryptoBrief) : List (String × ℕ) := buildIndexFrom 0 [] cache

/-- `{c.name.lower(): i for i, c in enumerate(...)}` (line 603). -/
def nameIndexFrom : ℕ → List (String × ℕ) → List CryptoBrief → List (String × ℕ)
  | _, m, [] => m
  | i, m, c :: rest => nameIndexFrom (i + 1) (dictInsert m (pyLower c.name) i) rest

/-- The name index snapshot taken by `add_symbols_to_cache`. -/
def nameIndex (cache : List CryptoBrief) : List (String × ℕ) := nameIndexFrom 0 [] cache

/-- `{cb.symbol: cb.price for cb in self._cache_data}` (lines 320, 604). -/
def priceDict (cache : List CryptoBrief) : List (String × ℚ) :=
  cache.foldl (fun m c => dictInsert m c.symbol c.price) []

/-- `self._index_by_symbol.get(sym)`. -/
def indexGet (cache : List CryptoBrief) (symUpper : String) : Option ℕ :=
  dictGet (buildIndex cache) symUpper

/-- Index lookup followed by tuple access — the core of
`get_by_symbol` / `get_by_symbols` (lines 157-160, 772-775). -/
def cacheLookup (cache : List CryptoBrief) (symUpper : String) : Option CryptoBrief :=
  (indexGet cache symUpper).bind (fun i => cache[i]?)

/-- One upstream coin entry as parsed from a listings/quotes payload:
`{id, name, symbol, last_updated, quote: {currency: {price: ...}}}`.
A currency key absent from `quote` models both a missing quote object
and a quote without a usable price. -/
structure SymbolData where
  id : ℤ
  name : String
  symbol : String
  last_updated : String
  quote : List (String × ℚ)
deriving DecidableEq, Repr

/-- Body of a `/cryptocurrency/listings/latest` response. -/
structure ListingsPayload where
  error_code : ℤ
  error_message : String
  data : List SymbolData
deriving DecidableEq, Repr

/-- Body of a `/cryptocurrency/quotes/latest` response: `data` is a dict
keyed by the requested symbols. -/
structure QuotesPayload where
  error_code : ℤ
  error_message : String
  data : List (String × SymbolData)
deriving DecidableEq, Repr

/-- Outcome of one `requests.get`: either the call raises (network
error, timeout) or an HTTP response with a status code arrives. -/
inductive Http (π : Type) where
  | raised (msg : String)
  | resp (status : ℕ) (payload : π)
deriving DecidableEq, Repr

/-- The (up to) two responses a retried fetch can consume: `second` is
used only when `first` came back 429 (rate-limit retry, lines 300-307
and 644-651). -/
structure Retried (π : Type) where
  first : Http π
  second : Http π
deriving DecidableEq, Repr

/-- The GET / 429-retry preamble shared by `_refresh_once` and
`add_symbols_to_cache`: resolves to the final response or to the raised
exception. -/
def fetchWithRetry {π : Type} (r : Retried π) : Except String (ℕ × π) :=
  match r.first with
  | .raised m => .error m
  | .resp s p =>
    if s = 429 then
      match r.second with
      | .raised m => .error m
      | .resp s2 p2 => .ok (s2, p2)
    else .ok (s, p)

/-- Does the retried fetch fail: the request raises, the final response
has an HTTP error status (`raise_for_status`), or the payload carries a
non-zero upstream `error_code`? -/
def fetchFails {π : Type} (errCodeOf : π → ℤ) (r : Retried π) : Bool :=
  match fetchWithRetry r with
  | .error _ => true
  | .ok (s, p) => decide (400 ≤ s) || decide (errCodeOf p ≠ 0)

/-- The change marker computed at refresh time (lines 330-335 of
`_refresh_once`): the previous cached price, or the sentinel `-1` when
the symbol had no prior observation, compared against the new price by
`get_simvol`. -/
def refresh_change_marker (prevOpt : Option ℚ) (price : ℚ) : String :=
  get_simvol (prevOpt.getD (-1)) price

/-- One row of the refresh loop (lines 323-348): skip entries without a
price in the requested currency, else build the new `CryptoBrief`. -/
def refreshRow (prevPrices : List (String × ℚ)) (convertUpper : String)
    (c : SymbolData) : Option CryptoBrief :=
  match dictGet c.quote convertUpper with
  | none => none
  | some price =>
    let sym := pyUpper c.symbol
    let prevOpt := dictGet prevPrices sym
    some { id := c.id, name := c.name, symbol := sym, price := price,
           convert_currency := convertUpper, last_updated := c.last_updated,
           price_change := refresh_change_marker prevOpt price,
           previous_price := some (prevOpt.getD (-1)) }

/-- `_refresh_once` (lines 282-356) up to the cache swap: the new record
tuple, or the exception raised before any mutation. -/
def refresh_once_list (cache : List CryptoBrief) (env : Retried ListingsPayload)
    (convertUpper : String) : Except String (List CryptoBrief) :=
  match fetchWithRetry env with
  | .error m => .error m
  | .ok (s, payload) =>
    if 400 ≤ s then .error "HTTPError"
    else if payload.error_code ≠ 0 then .error ("API error: " ++ payload.error_message)
    else .ok (payload.data.filterMap (refreshRow (priceDict cache) convertUpper))

/-- The full cache state guarded by the client's lock: the record tuple,
the symbol index and the last-update timestamp (lines 90-92). -/
structure CacheState where
  cache_data : List CryptoBrief
  index_by_symbol : List (String × ℕ)
  last_update_ts : ℚ
deriving DecidableEq, Repr

/-- `_refresh_once` as a state transition: on success all three state
fields are replaced together under the lock (lines 351-356); every
failure is raised before the lock is taken, leaving the state
untouched. -/
def refresh_once (st : CacheState) (env : Retried ListingsPayload)
    (convertUpper : String) (now : ℚ) : CacheState × Option String :=
  match refresh_once_list st.cache_data env convertUpper with
  | .error m => (st, some m)
  | .ok rows =>
    ({ cache_data := rows, index_by_symbol := buildIndex rows, last_update_ts := now }, none)

/-- `_refresh_once_blocking` (lines 275-280): wraps any refresh failure
in a `RuntimeError` and re-raises it. -/
def refresh_once_blocking (cache : List CryptoBrief) (env : Retried ListingsPayload)
    (convertUpper : String) : Except String (List CryptoBrief) :=
  match refresh_once_list cache env convertUpper with
  | .error m => .error ("RuntimeError: listing fetch failed: " ++ m)
  | .ok rows => .ok rows

/-- The `if not self._cache_data: self._refresh_once_blocking(...)`
bootstrap prefix shared by `get_all_cached`, `get_by_symbol`,
`find_coin` and `add_symbols_to_cache`.  The network oracle `env` is a
fixed snapshot, so repeated bootstraps within one modelled call see the
same reply. -/
def ensureCacheB (env : Retried ListingsPayload) (defaultConvert : String)
    (cache : List CryptoBrief) : Except String (List CryptoBrief) :=
  if cache.isEmpty then refresh_once_blocking cache env (pyUpper defaultConvert)
  else .ok cache

/-! ## `find_coin` (api_coinmarketcap.py lines 374-549), modelled for a
single string token as invoked by the `add_symbols_to_cache` fallback
(`find_coin(tok, convert=self.default_convert)`).  Network traffic is an
oracle (`FindCoinNet`); each `Except.error` models the corresponding
call raising. -/

/-- The network interactions `find_coin` can perform for one token. -/
structure FindCoinNet where
  quotesBySymbol : Except String (Option SymbolData)
  mapLookup : Except String (Option ℤ)
  quotesById : Except String (Option SymbolData)
  ensureQuoteById : Except String (Option ℚ)

/-- The payload entry paired with its price in the wanted currency, when
both exist (`if symbol_data: ... if quote and "price" in quote`). -/
def quoteOf (osd : Option SymbolData) (convertUpper : String) : Option (SymbolData × ℚ) :=
  osd.bind (fun sd => (dictGet sd.quote convertUpper).map (fun p => (sd, p)))

/-- `_ensure_in_cache_from_symbol_data` (lines 390-461): append the coin
to the cache in the default currency unless its symbol is already
indexed; the new entry has `previous_price = None` and the
`"*️⃣"` change marker; every exception inside is swallowed. -/
def ensure_in_cache_from_symbol_data (defaultConvert : String) (net : FindCoinNet)
    (cache : List CryptoBrief) (sd : SymbolData) (srcConvertUpper : String)
    (lastUpdated : String) : List CryptoBrief :=
  let default_upper := pyUpper defaultConvert
  let symbol_upper := pyUpper sd.symbol
  if (indexGet cache symbol_upper).isSome then cache
  else
    let cache_price : Except String (Option ℚ) :=
      if srcConvertUpper = default_upper then .ok (dictGet sd.quote default_upper)
      else net.ensureQuoteById
    match cache_price with
    | .error _ => cache
    | .ok none => cache
    | .ok (some cp) =>
      if (indexGet cache symbol_upper).isSome then cache
      else
        cache ++ [{ id := sd.id, name := sd.name, symbol := symbol_upper, price := cp,
                    convert_currency := default_upper, last_updated := lastUpdated,
                    price_change := "*️⃣", previous_price := none }]

/-- `get_by_symbol` (lines 148-160) with an explicit cache, returning
the possibly-bootstrapped cache alongside the lookup result. -/
def getBySymbolSt (env : Retried ListingsPayload) (defaultConvert : String)
    (cache : List CryptoBrief) (symUpper : String) :
    Except String (List CryptoBrief × Option CryptoBrief) :=
  if symUpper = "" then .ok (cache, none)
  else
    match ensureCacheB env defaultConvert cache with
    | .error e => .error e
    | .ok c => .ok (c, cacheLookup c symUpper)

/-- `find_coin` for one token: cache by symbol, cache by name, network
by symbol, network by slug; a successful network hit is opportunistically
appended to the cache via `ensure_in_cache_from_symbol_data`.  Errors of
the fallback network calls are caught inside `find_coin` (the token is
reported unfound); only the bootstrap refresh propagates. -/
def find_coin (defaultConvert : String) (net : FindCoinNet)
    (env : Retried ListingsPayload) (token : String) (cache : List CryptoBrief) :
    List CryptoBrief × Except String (Option CryptoBrief) :=
  if token = "" then (cache, .ok none)
  else
    match ensureCacheB env defaultConvert cache with
    | .error e => (cache, .error e)
    | .ok c0 =>
      let lookup := pyLower (pyStrip token)
      match getBySymbolSt env defaultConvert c0 (pyUpper lookup) with
      | .error e => (c0, .error e)
      | .ok (c1, some cb) => (c1, .ok (some cb))
      | .ok (c1, none) =>
        match c1.find? (fun coin => decide (pyLower coin.name = lookup)) with
        | some coin => (c1, .ok (some coin))
        | none =>
          let convert_upper := pyUpper defaultConvert
          match net.quotesBySymbol with
          | .error _ => (c1, .ok none)
          | .ok osd =>
            match quoteOf osd convert_upper with
            | some (sd, p) =>
              (ensure_in_cache_from_symbol_data defaultConvert net c1 sd convert_upper
                 sd.last_updated,
               .ok (some { id := sd.id, name := sd.name, symbol := pyUpper sd.symbol,
                           price := p, convert_currency := convert_upper,
                           last_updated := sd.last_updated, price_change := "",
                           previous_price := some (-1) }))
            | none =>
              match net.mapLookup with
              | .error _ => (c1, .ok none)
              | .ok none => (c1, .ok none)
              | .ok (some _) =>
                match net.quotesById with
                | .error _ => (c1, .ok none)
                | .ok osd2 =>
                  match quoteOf osd2 convert_upper with
                  | some (sd2, p2) =>
                    (ensure_in_cache_from_symbol_data defaultConvert net c1 sd2 convert_upper
                       sd2.last_updated,
                     .ok (some { id := sd2.id, name := sd2.name, symbol := pyUpper sd2.symbol,
                                 price := p2, convert_currency := convert_upper,
                                 last_updated := sd2.last_updated, price_change := "",
                                 previous_price := some (-1) }))
                  | none => (c1, .ok none)

/-! ## `add_symbols_to_cache` (api_coinmarketcap.py lines 556-753) -/

/-- `is_probable_symbol` (lines 622-625). -/
def is_probable_symbol (x : String) : Bool :=
  let y := pyStrip x
  (!(pyContainsChar y ' ')) && y.data.all (fun ch => ch.isAlphanum || ch = '-' || ch = '.' || ch = '_')

/-- Token de-duplication by lowercase key, keeping the first spelling
(lines 582-588). -/
def dedupByLower (tokens : List String) : List String :=
  (tokens.foldl (fun (acc : List String × List String) t =>
    if acc.2.contains (pyLower t) then acc
    else (acc.1 ++ [t], acc.2 ++ [pyLower t])) ([], [])).1

/-- A Python `set(...)` of strings, as the deduplicated list; the
`sorted(...)` around it (line 627) only orders the outgoing request
parameter, which the response oracle abstracts. -/
def dedupKeepFirst (l : List String) : List String :=
  l.foldl (fun acc t => if acc.contains t then acc else acc ++ [t]) []

/-- One iteration of the batch-response loop (lines 661-683); the
accumulator carries (`new_items`, `found_now_symbols`, the live Python
local `price`, which retains the value from the last executed
`price = float(quote["price"])`). -/
def batchAccum (defaultUpper : String) (prevPrices : List (String × ℚ))
    (acc : List (String × CryptoBrief) × List String × Option ℚ)
    (kv : String × SymbolData) :
    List (String × CryptoBrief) × List String × Option ℚ :=
  match dictGet kv.2.quote defaultUpper with
  | none => acc
  | some price =>
    let prev := (dictGet prevPrices kv.1).getD (-1)
    (dictInsert acc.1 kv.1
      { id := kv.2.id, name := kv.2.name, symbol := kv.1, price := price,
        convert_currency := defaultUpper, last_updated := kv.2.last_updated,
        price_change := get_simvol prev price, previous_price := some prev },
     acc.2.1 ++ [pyUpper kv.1], some price)

/-- The batched `quotes/latest` step (lines 631-683): skipped entirely
when no token looks like a ticker; otherwise fetch (with one 429 retry),
raise on HTTP or upstream error, and fold the response rows. -/
def batchStep (defaultUpper : String) (prevPrices : List (String × ℚ))
    (probable : List String) (batch : Retried QuotesPayload) :
    Except String (List (String × CryptoBrief) × List String × Option ℚ) :=
  if probable.isEmpty then .ok ([], [], none)
  else
    match fetchWithRetry batch with
    | .error m => .error m
    | .ok (s, payload) =>
      if 400 ≤ s then .error "HTTPError"
      else if payload.error_code ≠ 0 then .error ("API error: " ++ payload.error_message)
      else .ok (payload.data.foldl (batchAccum defaultUpper prevPrices) ([], [], none))

/-- The network oracle for one `add_symbols_to_cache` call. -/
structure AddOracle where
  batch : Retried QuotesPayload
  findNet : String → FindCoinNet
  env : Retried ListingsPayload

/-- One iteration of the fallback loop (lines 696-727).  `find_coin`
errors are caught (`cb = None`).  When a coin IS resolved the code then
evaluates `get_simvol(prev, price)` — `price` is the stale step-4 local,
unbound (`NameError`) when the batch loop never ran a row — and then
calls `CryptoBrief(...)` without the required `previous_price` field,
which raises `TypeError`; both exceptions escape `add_symbols_to_cache`
(this `try` only covers the `find_coin` call). -/
def fallbackStep (defaultConvert : String) (net : FindCoinNet)
    (env : Retried ListingsPayload) (prevPrices : List (String × ℚ)) (tok : String)
    (st : List CryptoBrief × List (String × CryptoBrief) × Option ℚ) :
    (List CryptoBrief × List (String × CryptoBrief) × Option ℚ) × Option String :=
  let fr := find_coin defaultConvert net env tok st.1
  let cb? : Option CryptoBrief := match fr.2 with | .error _ => none | .ok o => o
  match cb? with
  | none => ((fr.1, st.2.1, st.2.2), none)
  | some cb =>
    let prev := (dictGet prevPrices cb.symbol).getD (-1)
    match st.2.2 with
    | none => ((fr.1, st.2.1, st.2.2), some "NameError: name price is not defined")
    | some price =>
      let change := get_simvol prev price
      if dataclassArgsOk fallbackCtorArgs cryptoBriefFields then
        -- dead branch: `previous_price` is required but absent from
        -- `fallbackCtorArgs`; the record value here is immaterial
        ((fr.1, dictInsert st.2.1 cb.symbol
            { id := cb.id, name := cb.name, symbol := cb.symbol, price := cb.price,
              convert_currency := pyUpper defaultConvert, last_updated := cb.last_updated,
              price_change := change, previous_price := some prev }, st.2.2), none)
      else
        ((fr.1, st.2.1, st.2.2),
         some "TypeError: CryptoBrief takes a required argument previous_price")

/-- The fallback loop over the unresolved tokens; an exception aborts
the loop (and the whole call) but keeps the cache insertions `find_coin`
already committed. -/
def fallbackLoop (defaultConvert : String) (O : AddOracle)
    (prevPrices : List (String × ℚ)) :
    List String → List CryptoBrief × List (String × CryptoBrief) × Option ℚ →
    (List CryptoBrief × List (String × CryptoBrief) × Option ℚ) × Option String
  | [], st => (st, none)
  | tok :: rest, st =>
    match fallbackStep defaultConvert (O.findNet tok) O.env prevPrices tok st with
    | (st1, some e) => (st1, some e)
    | (st1, none) => fallbackLoop defaultConvert O prevPrices rest st1

/-- One iteration of the commit loop (lines 738-745): an already-indexed
symbol is replaced only when `replace_existing`; a new symbol is
appended and indexed at the current tuple length. -/
def commitStep (replace : Bool) (st : List CryptoBrief × List (String × ℕ))
    (kv : String × CryptoBrief) : List CryptoBrief × List (String × ℕ) :=
  match dictGet st.2 kv.1 with
  | some pos => if replace then (st.1.set pos kv.2, st.2) else st
  | none => (st.1 ++ [kv.2], dictInsert st.2 kv.1 st.1.length)

/-- The atomic commit of `add_symbols_to_cache` (lines 734-753). -/
def commitItems (cache : List CryptoBrief) (items : List (String × CryptoBrief))
    (replace : Bool) : List CryptoBrief :=
  (items.foldl (commitStep replace) (cache, buildIndex cache)).1

/-- `add_symbols_to_cache(symbols, convert=..., replace_existing=...)`
(lines 556-753).  The returned pair is (the cache state when the call
ends — also after an exception — , the call outcome).  The `convert`
argument is ignored by the source (the cache currency is always
`self.default_convert`), so it is not a parameter here. -/
def add_symbols_to_cache (O : AddOracle) (defaultConvert : String)
    (symbols : List String) (replace_existing : Bool) (cache : List CryptoBrief) :
    List CryptoBrief × Except String (List CryptoBrief) :=
  let default_upper := pyUpper defaultConvert
  let raw_tokens := (symbols.filter (fun s => decide (pyStrip s ≠ ""))).map pyStrip
  let unique_tokens := dedupByLower raw_tokens
  if unique_tokens.isEmpty then
    match ensureCacheB O.env defaultConvert cache with
    | .error e => (cache, .error e)
    | .ok c => (c, .ok c)
  else
    match ensureCacheB O.env defaultConvert cache with
    | .error e => (cache, .error e)
    | .ok c0 =>
      let symbol_index := buildIndex c0
      let name_index := nameIndex c0
      let prev_prices := priceDict c0
      let tokens_to_query := unique_tokens.filter (fun tok =>
        (dictGet symbol_index (pyUpper (pyStrip tok))).isNone &&
          (dictGet name_index (pyLower (pyStrip tok))).isNone)
      if tokens_to_query.isEmpty then
        match ensureCacheB O.env defaultConvert c0 with
        | .error e => (c0, .error e)
        | .ok c => (c, .ok c)
      else
        let probable_symbols :=
          dedupKeepFirst ((tokens_to_query.filter is_probable_symbol).map
            (fun t => pyUpper (pyStrip t)))
        match batchStep default_upper prev_prices probable_symbols O.batch with
        | .error e => (c0, .error e)
        | .ok (items0, found_upper, pv0) =>
          let unresolved := tokens_to_query.filter (fun tok =>
            decide (¬ found_upper.contains (pyUpper (pyStrip tok))))
          match fallbackLoop defaultConvert O prev_prices unresolved (c0, items0, pv0) with
          | ((c1, _, _), some e) => (c1, .error e)
          | ((c1, items, _), none) =>
            if items.isEmpty then
              match ensureCacheB O.env defaultConvert c1 with
              | .error e => (c1, .error e)
              | .ok c => (c, .ok c)
            else
              let final := commitItems c1 items replace_existing
              (final, .ok final)

/-! ## Alert evaluation: `main.on_check_notifications` (main.py lines
91-117) -/

/-- `get_by_symbols` (lines 757-776): per-symbol index lookups in input
order, silently dropping misses.  The empty-cache bootstrap branch is
subsumed by quantifying over the cache the lookups run against. -/
def get_by_symbols (cache : List CryptoBrief) (symbols : List String) : List CryptoBrief :=
  symbols.filterMap (fun sym => cacheLookup cache (pyUpper sym))

/-- The inner rule loop of `on_check_notifications` (lines 108-117) for
one non-skipped coin: each rule on the coin's symbol is checked through
the 4-argument `is_between(...)` call of line 110; an exception aborts
the evaluation thread.  A fired pair stands for the notification
send/delete block (lines 111-117), whose internals the claims do not
concern. -/
def checkCoinGo (coin : CryptoBrief) (price_old : ℚ) :
    List AlertCrypto → List (CryptoBrief × AlertCrypto) × Option String
  | [] => ([], none)
  | n :: rest =>
    if coin.symbol = n.symbol then
      match call_is_between
          [PyVal.num n.price, PyVal.num coin.price, PyVal.num price_old,
           PyVal.str n.trigger] with
      | .error e => ([], some e)
      | .ok true =>
        match checkCoinGo coin price_old rest with
        | (fs, err) => ((coin, n) :: fs, err)
      | .ok false => checkCoinGo coin price_old rest
    else checkCoinGo coin price_old rest

/-- The per-coin body (lines 101-110): records whose previous price is
the sentinel `-1` or `None` are skipped before any rule is examined. -/
def checkCoin (coin : CryptoBrief) (notifs : List AlertCrypto) :
    List (CryptoBrief × AlertCrypto) × Option String :=
  match coin.previous_price with
  | none => ([], none)
  | some po => if po = -1 then ([], none) else checkCoinGo coin po notifs

/-- `on_check_notifications` over the coins returned by
`get_by_symbols`: fired (coin, rule) pairs in evaluation order together
with the exception, if one aborted the loop. -/
def on_check_notifications (notifs : List AlertCrypto) :
    List CryptoBrief → List (CryptoBrief × AlertCrypto) × Option String
  | [] => ([], none)
  | c :: cs =>
    match checkCoin c notifs with
    | (fs, some e) => (fs, some e)
    | (fs, none) =>
      match on_check_notifications notifs cs with
      | (fs2, err) => (fs ++ fs2, err)

/-! ## Concrete fixtures used by specific-input theorems -/

/-- A notification rule: BTC above 50000. -/
def btcAlert : AlertCrypto :=
  { id := 1, user_id := 7, symbol := "BTC", price := 50000, trigger := ">", coment := "" }

/-- A cached BTC record: price 51000, previous price 49000. -/
def btcCoin : CryptoBrief :=
  { id := 1, name := "Bitcoin", symbol := "BTC", price := 51000,
    convert_currency := "USD", last_updated := "", price_change := "↗️",
    previous_price := some 49000 }

/-- A network oracle on which every request raises (no network calls are
expected on the paths it is used for). -/
def noNet : FindCoinNet :=
  { quotesBySymbol := .error "ConnectionError", mapLookup := .error "ConnectionError",
    quotesById := .error "ConnectionError", ensureQuoteById := .error "ConnectionError" }

/-- A listings fetch that raises both times. -/
def noEnv : Retried ListingsPayload :=
  { first := .raised "ConnectionError", second := .raised "ConnectionError" }

/-- A batch quotes fetch that raises both times. -/
def noBatch : Retried QuotesPayload :=
  { first := .raised "ConnectionError", second := .raised "ConnectionError" }

/-- An add-symbols oracle with no usable network. -/
def noOracle : AddOracle :=
  { batch := noBatch, findNet := fun _ => noNet, env := noEnv }

/-! # Theorems

## Order lemmas for the descending tuple sort -/

theorem descLexGtB_eq_true_iff {a b : ℚ × ℕ} :
    descLexGtB a b = true ↔ (b.1 < a.1 ∨ (a.1 = b.1 ∧ b.2 < a.2)) := by
  simp [descLexGtB]

theorem descLexGtB_self (a : ℚ × ℕ) : descLexGtB a a = false := by
  simp [descLexGtB]

theorem descLexGtB_of_ge_ne {a b : ℚ × ℕ} (h : descLexGe a b) (hne : a ≠ b) :
    descLexGtB a b = true := by
  rw [descLexGtB_eq_true_iff]
  rcases h with h | ⟨he, hl⟩
  · exact Or.inl h
  · rcases lt_or_eq_of_le hl with h2 | h2
    · exact Or.inr ⟨he, h2⟩
    · exact absurd (Prod.ext_iff.mpr ⟨he, h2.symm⟩) hne

theorem descLexGtB_false_of_ge {a b : ℚ × ℕ} (h : descLexGe a b) :
    descLexGtB b a = false := by
  rw [Bool.eq_false_iff]
  intro hc
  rw [descLexGtB_eq_true_iff] at hc
  rcases h with h | ⟨he, hl⟩ <;> rcases hc with hc | ⟨hce, hcl⟩
  · exact lt_asymm h hc
  · exact (ne_of_lt h) hce
  · exact absurd hc (he ▸ lt_irrefl _)
  · exact absurd hcl (not_lt.mpr hl)

theorem mem_take_of_sorted {l : List (ℚ × ℕ)} (hs : List.Sorted descLexGe l)
    (hn : l.Nodup) (x : ℚ × ℕ) (k : ℕ) :
    x ∈ l.take k ↔ x ∈ l ∧ l.countP (fun y => descLexGtB y x) < k := by
  induction l generalizing k with
  | nil => simp
  | cons a l ih =>
    rw [List.sorted_cons] at hs
    rw [List.nodup_cons] at hn
    obtain ⟨ha, hs'⟩ := hs
    obtain ⟨hna, hn'⟩ := hn
    cases k with
    | zero => simp
    | succ k =>
      rw [List.take_succ_cons, List.countP_cons]
      by_cases hxa : x = a
      · subst hxa
        have hc0 : l.countP (fun y => descLexGtB y x) = 0 :=
          List.countP_eq_zero.mpr (fun y hy => by
            simp [descLexGtB_false_of_ge (ha y hy)])
        simp [hc0, descLexGtB_self]
      · have hmem : x ∈ a :: List.take k l ↔ x ∈ List.take k l := by
          simp [List.mem_cons, hxa]
        rw [hmem, ih hs' hn']
        constructor
        · rintro ⟨hxl, hcount⟩
          have hgt : descLexGtB a x = true := descLexGtB_of_ge_ne (ha x hxl) (Ne.symm hxa)
          refine ⟨List.mem_cons_of_mem _ hxl, ?_⟩
          rw [hgt]
          norm_num
          omega
        · rintro ⟨hxal, hcount⟩
          rcases List.mem_cons.mp hxal with h | h
          · exact absurd h hxa
          · have hgt : descLexGtB a x = true := descLexGtB_of_ge_ne (ha x h) (Ne.symm hxa)
            rw [hgt] at hcount
            norm_num at hcount
            exact ⟨h, by omega⟩

theorem mem_take_insertionSort {l : List (ℚ × ℕ)} (hn : l.Nodup) (x : ℚ × ℕ) (k : ℕ) :
    x ∈ (l.insertionSort descLexGe).take k ↔
      x ∈ l ∧ l.countP (fun y => descLexGtB y x) < k := by
  have hperm := List.perm_insertionSort descLexGe l
  rw [mem_take_of_sorted (List.sorted_insertionSort descLexGe l) (hperm.nodup_iff.mpr hn),
    hperm.mem_iff, hperm.countP_eq]

/-! ## Increment-fold lemmas -/

theorem length_foldl_bump (sel : List (ℚ × ℕ)) (cs : List ℤ) :
    (sel.foldl (fun c p => bump c p.2) cs).length = cs.length := by
  induction sel generalizing cs with
  | nil => rfl
  | cons p sel ih => rw [List.foldl_cons, ih]; simp [bump]

theorem bump_getD (cs : List ℤ) (j i : ℕ) :
    (bump cs j).getD i 0 = cs.getD i 0 + if i = j ∧ i < cs.length then 1 else 0 := by
  rw [bump, List.getD_eq_getElem?_getD, List.getD_eq_getElem?_getD, List.getElem?_set]
  by_cases h1 : j = i
  · subst h1
    by_cases h2 : j < cs.length
    · simp [h2, List.getD_eq_getElem?_getD]
    · have : cs[j]? = none := List.getElem?_eq_none (not_lt.mp h2)
      simp [h2, this]
  · simp [h1, Ne.symm h1]

theorem foldl_bump_getD (sel : List (ℚ × ℕ)) (cs : List ℤ)
    (hnd : (sel.map Prod.snd).Nodup) (i : ℕ) :
    (sel.foldl (fun c p => bump c p.2) cs).getD i 0 =
      cs.getD i 0 + if i < cs.length ∧ ∃ p ∈ sel, p.2 = i then 1 else 0 := by
  induction sel generalizing cs with
  | nil => simp
  | cons p sel ih =>
    rw [List.map_cons, List.nodup_cons] at hnd
    obtain ⟨hp, hnd'⟩ := hnd
    rw [List.foldl_cons, ih _ hnd', bump_getD]
    have hlen : (bump cs p.2).length = cs.length := by simp [bump]
    rw [hlen]
    by_cases hip : i = p.2
    · have hnot : ¬ ∃ q ∈ sel, q.2 = i := by
        rintro ⟨q, hq, hq2⟩
        exact hp ((hq2.trans hip) ▸ List.mem_map_of_mem Prod.snd hq)
      by_cases hil : i < cs.length
      · rw [if_pos ⟨hip, hil⟩, if_neg (fun hc => hnot hc.2),
          if_pos ⟨hil, p, List.mem_cons_self p sel, hip.symm⟩]
        ring
      · rw [if_neg (fun hc => hil hc.2), if_neg (fun hc => hil hc.1),
          if_neg (fun hc => hil hc.1)]
        ring
    · have hiff : (∃ q ∈ p :: sel, q.2 = i) ↔ (∃ q ∈ sel, q.2 = i) := by
        constructor
        · rintro ⟨q, hq, hq2⟩
          rcases List.mem_cons.mp hq with rfl | hq'
          · exact absurd hq2.symm hip
          · exact ⟨q, hq', hq2⟩
        · rintro ⟨q, hq, hq2⟩
          exact ⟨q, List.mem_cons_of_mem _ hq, hq2⟩
      simp only [hip, false_and, if_false, add_zero, hiff]

theorem bump_sum (cs : List ℤ) (j : ℕ) (h : j < cs.length) :
    (bump cs j).sum = cs.sum + 1 := by
  induction cs generalizing j with
  | nil => simp at h
  | cons a cs ih =>
    cases j with
    | zero => simp [bump]; ring
    | succ j =>
      have hj : j < cs.length := by simpa using h
      have : bump (a :: cs) (j + 1) = a :: bump cs j := by
        simp [bump, List.getD_cons_succ]
      rw [this, List.sum_cons, ih j hj, List.sum_cons]
      ring

theorem foldl_bump_sum (sel : List (ℚ × ℕ)) (cs : List ℤ)
    (h : ∀ p ∈ sel, p.2 < cs.length) :
    (sel.foldl (fun c p => bump c p.2) cs).sum = cs.sum + sel.length := by
  induction sel generalizing cs with
  | nil => simp
  | cons p sel ih =>
    rw [List.foldl_cons, ih _ (fun q hq => by
        rw [show (bump cs p.2).length = cs.length by simp [bump]]
        exact h q (List.mem_cons_of_mem _ hq)),
      bump_sum cs p.2 (h p (List.mem_cons_self _ _)), List.length_cons]
    push_cast
    ring

/-! ## Structure of `fracsOf` -/

theorem rawOf_length (w : List ℚ) (d : ℤ) : (rawOf w d).length = w.length := by
  simp [rawOf]

theorem baseOf_length (w : List ℚ) (d : ℤ) : (baseOf w d).length = w.length := by
  simp [baseOf, rawOf]

theorem fracsOf_length (w : List ℚ) (d : ℤ) : (fracsOf w d).length = w.length := by
  simp [fracsOf, rawOf]

theorem fracsOf_map_snd (w : List ℚ) (d : ℤ) :
    (fracsOf w d).map Prod.snd = List.range (rawOf w d).length := by
  rw [fracsOf, List.map_map]
  exact (List.map_congr_left (fun a _ => rfl)).trans (List.map_id _)

theorem fracsOf_nodup (w : List ℚ) (d : ℤ) : (fracsOf w d).Nodup := by
  have h := fracsOf_map_snd w d
  exact List.Nodup.of_map Prod.snd (h ▸ List.nodup_range _)

theorem mem_fracsOf {w : List ℚ} {d : ℤ} {p : ℚ × ℕ} :
    p ∈ fracsOf w d ↔ p.2 < w.length ∧ p = (fracAt w d p.2, p.2) := by
  rw [fracsOf]
  constructor
  · intro hp
    obtain ⟨i, hi, rfl⟩ := List.mem_map.mp hp
    rw [List.mem_range, rawOf_length] at hi
    exact ⟨hi, rfl⟩
  · rintro ⟨hlt, hp⟩
    rw [hp]
    exact List.mem_map.mpr ⟨p.2, List.mem_range.mpr (by rw [rawOf_length]; exact hlt), rfl⟩

/-! ## The allocation equals rank-based largest-remainder apportionment -/

theorem allocate_counts_length (w : List ℚ) (d : ℤ) :
    (allocate_counts w d).length = w.length := by
  rw [allocate_counts]
  by_cases hd : 0 < deficitOf w d
  · rw [if_pos hd, length_foldl_bump, baseOf_length]
  · rw [if_neg hd, baseOf_length]

theorem allocate_counts_getD (w : List ℚ) (d : ℤ) (i : ℕ) (hi : i < w.length) :
    (allocate_counts w d).getD i 0 =
      (baseOf w d).getD i 0 +
        if (rankDesc w d i : ℤ) < deficitOf w d then 1 else 0 := by
  by_cases hd : 0 < deficitOf w d
  · rw [allocate_counts, if_pos hd]
    set sel := ((fracsOf w d).insertionSort descLexGe).take (deficitOf w d).toNat with hsel
    have hsort_nodup : ((fracsOf w d).insertionSort descLexGe).Nodup :=
      ((List.perm_insertionSort descLexGe (fracsOf w d)).nodup_iff).mpr (fracsOf_nodup w d)
    have hnd : (sel.map Prod.snd).Nodup := by
      have hsub : sel.Sublist ((fracsOf w d).insertionSort descLexGe) :=
        List.take_sublist _ _
      have hmap : (((fracsOf w d).insertionSort descLexGe).map Prod.snd).Nodup := by
        have hperm := (List.perm_insertionSort descLexGe (fracsOf w d)).map Prod.snd
        rw [hperm.nodup_iff, fracsOf_map_snd]
        exact List.nodup_range _
      exact (hsub.map Prod.snd).nodup hmap
    rw [foldl_bump_getD _ _ hnd i]
    congr 1
    have hmem_sel : (∃ p ∈ sel, p.2 = i) ↔ (fracAt w d i, i) ∈ sel := by
      constructor
      · rintro ⟨p, hp, hp2⟩
        have hpf : p ∈ fracsOf w d :=
          (List.perm_insertionSort descLexGe (fracsOf w d)).mem_iff.mp
            (List.take_subset _ _ hp)
        obtain ⟨_, hpe⟩ := mem_fracsOf.mp hpf
        rw [hp2] at hpe
        exact hpe ▸ hp
      · intro hp
        exact ⟨_, hp, rfl⟩
    have htake : (fracAt w d i, i) ∈ sel ↔
        (fracAt w d i, i) ∈ fracsOf w d ∧
          (fracsOf w d).countP (fun y => descLexGtB y (fracAt w d i, i)) <
            (deficitOf w d).toNat := by
      rw [hsel]
      exact mem_take_insertionSort (fracsOf_nodup w d) _ _
    have hmemf : (fracAt w d i, i) ∈ fracsOf w d := mem_fracsOf.mpr ⟨hi, rfl⟩
    have hcount : (fracsOf w d).countP (fun y => descLexGtB y (fracAt w d i, i)) =
        rankDesc w d i := by
      rw [fracsOf, List.countP_map, rankDesc, List.countP_eq_length_filter, rawOf_length]
      congr 1
    by_cases hcond : (rankDesc w d i : ℤ) < deficitOf w d
    · rw [if_pos, if_pos hcond]
      refine ⟨by rw [baseOf_length]; exact hi, ?_⟩
      rw [hmem_sel, htake]
      refine ⟨hmemf, ?_⟩
      rw [hcount]
      exact Int.lt_toNat.mpr hcond
    · rw [if_neg, if_neg hcond]
      rintro ⟨_, hsel_mem⟩
      rw [hmem_sel, htake, hcount] at hsel_mem
      exact hcond (Int.lt_toNat.mp hsel_mem.2)
  · rw [allocate_counts, if_neg hd]
    have : ¬ (rankDesc w d i : ℤ) < deficitOf w d := by
      intro hc
      have h0 : (0 : ℤ) ≤ (rankDesc w d i : ℤ) := Int.ofNat_nonneg _
      omega
    rw [if_neg this, add_zero]

/-- The counts loop of `generate_schedule` implements largest-remainder
apportionment with ties broken by window index DESCENDING (Python's
`sort(reverse=True)` reverses the index comparison along with the
fraction comparison). -/
theorem allocate_counts_eq_specAllocDesc (w : List ℚ) (d : ℤ) :
    allocate_counts w d = specAllocDesc w d := by
  apply List.ext_getElem
  · simp [allocate_counts_length, specAllocDesc]
  · intro i h1 h2
    have hi : i < w.length := by rwa [allocate_counts_length] at h1
    have hL : (allocate_counts w d)[i] = (allocate_counts w d).getD i 0 :=
      (List.getD_eq_getElem _ _ h1).symm
    have hR : (specAllocDesc w d)[i] =
        (baseOf w d).getD i 0 +
          if (rankDesc w d i : ℤ) < deficitOf w d then 1 else 0 := by
      simp only [specAllocDesc, List.getElem_map, List.getElem_range]
    rw [hL, hR, allocate_counts_getD w d i hi]

/-! ## The allocation sums to the daily request count -/

theorem sum_floor_gt : ∀ (l : List ℚ), l ≠ [] →
    l.sum - (l.length : ℚ) < (((l.map (fun x => (⌊x⌋ : ℤ))).sum : ℤ) : ℚ)
  | [], h => absurd rfl h
  | [x], _ => by
    simpa using Int.sub_one_lt_floor x
  | x :: y :: l, _ => by
    have ih := sum_floor_gt (y :: l) (by simp)
    have hx := Int.sub_one_lt_floor x
    simp only [List.sum_cons, List.length_cons, List.map_cons] at ih ⊢
    push_cast at ih ⊢
    linarith

theorem baseOf_sum_le (w : List ℚ) (d : ℤ) (hsum : w.sum = 1) :
    (baseOf w d).sum ≤ d := by
  have h2 : (rawOf w d).sum = (d : ℚ) := by
    have h := List.sum_map_mul_right w (fun b => b) ((d : ℚ))
    simp only [List.map_id'] at h
    rw [rawOf]
    rw [show (fun w_1 => w_1 * (d : ℚ)) = (fun b => (fun x => x) b * (d : ℚ)) from rfl]
    rw [h, hsum, one_mul]
  have h1 : (((baseOf w d).sum : ℤ) : ℚ) ≤ (rawOf w d).sum := by
    rw [baseOf, Int.cast_list_sum, List.map_map]
    have := List.sum_le_sum (l := rawOf w d)
      (f := fun x => ((⌊x⌋ : ℤ) : ℚ)) (g := fun x => x) (fun x _ => Int.floor_le x)
    simpa using this
  have := h1.trans_eq h2
  exact_mod_cast this

theorem deficitOf_nonneg (w : List ℚ) (d : ℤ) (hsum : w.sum = 1) :
    0 ≤ deficitOf w d := by
  have := baseOf_sum_le w d hsum
  rw [deficitOf]
  omega

theorem deficitOf_lt_length (w : List ℚ) (d : ℤ) (hsum : w.sum = 1) :
    deficitOf w d < w.length := by
  have hne : rawOf w d ≠ [] := by
    intro h
    have hw : w = [] := by
      have := congrArg List.length h
      rw [rawOf_length] at this
      exact List.length_eq_zero.mp this
    rw [hw] at hsum
    simp at hsum
  have h3 := sum_floor_gt (rawOf w d) hne
  have h2 : (rawOf w d).sum = (d : ℚ) := by
    have h := List.sum_map_mul_right w (fun b => b) ((d : ℚ))
    simp only [List.map_id'] at h
    rw [rawOf]
    rw [show (fun w_1 => w_1 * (d : ℚ)) = (fun b => (fun x => x) b * (d : ℚ)) from rfl]
    rw [h, hsum, one_mul]
  rw [h2, rawOf_length] at h3
  have hb : (baseOf w d).sum = ((rawOf w d).map (fun x => (⌊x⌋ : ℤ))).sum := by
    rw [baseOf]
  rw [deficitOf, hb]
  have h4 : ((d - ((rawOf w d).map (fun x => (⌊x⌋ : ℤ))).sum : ℤ) : ℚ) < ((w.length : ℤ) : ℚ) := by
    push_cast
    push_cast at h3
    linarith
  exact_mod_cast h4

theorem allocate_counts_sum (w : List ℚ) (d : ℤ) (hsum : w.sum = 1) :
    (allocate_counts w d).sum = d := by
  have h0 : 0 ≤ deficitOf w d := deficitOf_nonneg w d hsum
  have hlt : deficitOf w d < w.length := deficitOf_lt_length w d hsum
  by_cases hd : 0 < deficitOf w d
  · rw [allocate_counts, if_pos hd]
    rw [foldl_bump_sum _ _ (fun p hp => by
      have hpf : p ∈ fracsOf w d :=
        (List.perm_insertionSort descLexGe (fracsOf w d)).mem_iff.mp
          (List.take_subset _ _ hp)
      rw [baseOf_length]
      exact (mem_fracsOf.mp hpf).1)]
    have hsel_len :
        (((fracsOf w d).insertionSort descLexGe).take (deficitOf w d).toNat).length =
          (deficitOf w d).toNat := by
      rw [List.length_take, List.length_insertionSort, fracsOf_length]
      omega
    rw [hsel_len, deficitOf] at *
    omega
  · have hz : deficitOf w d = 0 := le_antisymm (not_lt.mp hd) h0
    rw [allocate_counts, if_neg hd]
    rw [deficitOf] at hz
    omega

/-! ## Claim theorems for the scheduler -/

/-- C3 counterexample: at budget 10000 and 31 days the code's per-window
allocations are [60, 161, 61, 20, 20], not the [60, 161, 60, 20, 20]
asserted by the claim (the asserted list sums to 321, not 322). -/
theorem generate_schedule_example_counts_ne_claimed :
    (generate_schedule 10000 31 DEFAULT_WEIGHTS).map Schedule.counts =
        Except.ok [60, 161, 61, 20, 20] ∧
      ([60, 161, 61, 20, 20] : List ℤ) ≠ [60, 161, 60, 20, 20] ∧
      ([60, 161, 60, 20, 20] : List ℤ).sum = 321 := by
  refine ⟨by decide, by decide, by decide⟩

/-- C3 (amended): budget 10000 over 31 days gives
`dailyRequestCount = 322` and per-window allocations
[60, 161, 61, 20, 20], which sum to 322 (window 2, holding 18.75% weight,
wins the single leftover unit over window 0 on the fraction tie 0.375). -/
theorem generate_schedule_example :
    generate_schedule 10000 31 DEFAULT_WEIGHTS =
      Except.ok { daily_requests := 322, monthly_used := 9982,
                  residual_monthly := 18, counts := [60, 161, 61, 20, 20] } ∧
    ([60, 161, 61, 20, 20] : List ℤ).sum = 322 := by
  refine ⟨by decide, by decide⟩

/-- C4: for every nonnegative budget, positive month length and
length-5 weight vector summing to 1, `generate_schedule` succeeds and
its per-window allocations sum exactly to
`dailyRequestCount = floor(budget / days)`. -/
theorem generate_schedule_apportionment_exact (b d : ℤ) (w : List ℚ)
    (hb : 0 ≤ b) (hd : 0 < d) (hw : w.length = 5) (hsum : w.sum = 1) :
    ∃ sch, generate_schedule b d w = Except.ok sch ∧
      sch.counts.sum = sch.daily_requests ∧ sch.daily_requests = Int.fdiv b d := by
  rw [generate_schedule]
  rw [if_neg (by rw [hw]; decide), if_neg hd.ne']
  exact ⟨_, rfl, allocate_counts_sum w _ hsum, rfl⟩

/-- C4 witness: the concrete schedule of the repository
(budget 10000, 31 days, default weights). -/
theorem generate_schedule_apportionment_exact_witness :
    ∃ sch, generate_schedule 10000 31 DEFAULT_WEIGHTS = Except.ok sch ∧
      sch.counts.sum = sch.daily_requests ∧ sch.daily_requests = Int.fdiv 10000 31 :=
  generate_schedule_apportionment_exact 10000 31 DEFAULT_WEIGHTS
    (by decide) (by decide) (by decide) (by decide)

/-- C5 counterexample: with weights [1/4, 1/4, 1/4, 1/8, 1/8] and a
daily budget of 2, windows 0, 1, 2 tie at fractional remainder 1/2; the
code gives the two leftover units to windows 2 and 1 ([0,1,1,0,0]),
while the claimed ascending tie-break would give them to windows 0 and 1
([1,1,0,0,0]).  All values are dyadic, so Python float arithmetic is
exact here. -/
theorem allocate_counts_tie_ne_ascending :
    allocate_counts [1/4, 1/4, 1/4, 1/8, 1/8] 2 = [0, 1, 1, 0, 0] ∧
      specAllocAsc [1/4, 1/4, 1/4, 1/8, 1/8] 2 = [1, 1, 0, 0, 0] ∧
      allocate_counts [1/4, 1/4, 1/4, 1/8, 1/8] 2 ≠
        specAllocAsc [1/4, 1/4, 1/4, 1/8, 1/8] 2 := by
  refine ⟨by decide, by decide, by decide⟩

/-- C5 (amended): the counts loop of `generate_schedule` assigns each
window `floor(weight[i] * dailyRequestCount)` and hands the remaining
units one each to the windows with the largest fractional remainder,
with ties broken by window index DESCENDING (the larger index receives
its extra unit first), for every weight vector and every daily count. -/
theorem allocate_counts_is_largest_remainder_desc (w : List ℚ) (d : ℤ) :
    allocate_counts w d = specAllocDesc w d :=
  allocate_counts_eq_specAllocDesc w d

/-- C6 counterexample: none of the three validations the claim asserts
exists.  Weights summing to 2.5, a negative budget, and a negative month
length are all accepted without a configuration error. -/
theorem generate_schedule_missing_validation :
    (generate_schedule 310 31 [1/2, 1/2, 1/2, 1/2, 1/2]).isOk = true ∧
      (generate_schedule (-5) 31 DEFAULT_WEIGHTS).isOk = true ∧
      (generate_schedule 100 (-31) DEFAULT_WEIGHTS).isOk = true := by
  refine ⟨by decide, by decide, by decide⟩

/-- C6 (amended): `generate_schedule` validates nothing about the
budget sign, the days sign, or the weight sum.  Its only failures are
the `assert len(weights) == len(WINDOWS_UTC)` and the division by zero
at `days_in_month = 0`; every length-5 weight vector with nonzero days
succeeds. -/
theorem generate_schedule_failure_modes (b d : ℤ) (w : List ℚ) :
    (w.length = 5 → d ≠ 0 → (generate_schedule b d w).isOk = true) ∧
      (w.length = 5 →
        generate_schedule b 0 w =
          Except.error "ZeroDivisionError: integer division or modulo by zero") ∧
      (w.length ≠ 5 →
        generate_schedule b d w =
          Except.error "AssertionError: weights length mismatch") := by
  refine ⟨?_, ?_, ?_⟩
  · intro hw hd
    rw [generate_schedule, if_neg (by rw [hw]; decide), if_neg hd]
    rfl
  · intro hw
    rw [generate_schedule, if_neg (by rw [hw]; decide), if_pos rfl]
  · intro hw
    rw [generate_schedule, if_pos (by simpa [WINDOWS_UTC] using hw)]

/-- C6 witness: the three failure-mode branches at concrete inputs. -/
theorem generate_schedule_failure_modes_witness :
    (generate_schedule 10000 31 DEFAULT_WEIGHTS).isOk = true ∧
      generate_schedule 10000 0 DEFAULT_WEIGHTS =
        Except.error "ZeroDivisionError: integer division or modulo by zero" ∧
      generate_schedule 10000 31 [1, 0, 0, 0] =
        Except.error "AssertionError: weights length mismatch" :=
  ⟨(generate_schedule_failure_modes 10000 31 DEFAULT_WEIGHTS).1 (by decide) (by decide),
   (generate_schedule_failure_modes 10000 0 DEFAULT_WEIGHTS).2.1 (by decide),
   (generate_schedule_failure_modes 10000 31 [1, 0, 0, 0]).2.2 (by decide)⟩

/-! ## Claim theorems for the change marker and the alert evaluation -/

/-- C2 counterexample: at refresh time a record with no prior
observation (previous price absent, hence the sentinel `-1`) and price
100 gets the UP marker `"↗️"` (the sentinel is compared as an ordinary
number and `-1 < 100`), not the uninitialized marker `"*️⃣"` that the
claim asserts (that marker is produced only by `find_coin`'s cache
insertion, never by `_refresh_once`). -/
theorem refresh_marker_sentinel_is_up :
    refresh_change_marker none 100 = "↗️" ∧
      refresh_change_marker (some (-1)) 100 = "↗️" ∧
      refresh_change_marker none 100 ≠ "*️⃣" :=
  ⟨by decide, by decide, by decide⟩

/-- C2 (amended): the refresh-time change marker is `get_simvol` of
(previous price with `-1` for "none", new price): 100 to 150 gives up,
100 to 80 gives down, 100 to 100 gives unchanged, and the sentinel to
100 gives UP — never a distinct uninitialized marker. -/
theorem refresh_marker_cases :
    refresh_change_marker (some 100) 150 = "↗️" ∧
      refresh_change_marker (some 100) 80 = "↘️" ∧
      refresh_change_marker (some 100) 100 = "⏺️" ∧
      refresh_change_marker none 100 = "↗️" :=
  ⟨by decide, by decide, by decide, by decide⟩

/-- C1 (code-bug evidence): with rule {BTC, threshold 50000, `>`} and
cached record {price 51000, previousPrice 49000} the evaluation fires
nothing — the line-110 call passes 4 positional arguments to the
3-parameter `is_between`, raising `TypeError` before any comparison —
although `is_between` itself, on the three intended arguments, returns
`true` exactly as the claim describes. -/
theorem alert_evaluation_raises_type_error :
    on_check_notifications [btcAlert] [btcCoin] =
        ([], some "TypeError: is_between() takes 3 positional arguments but 4 were given") ∧
      is_between btcAlert.price btcCoin.price ">" = true :=
  ⟨by decide, by decide⟩

theorem checkCoinGo_fired_coin (coin : CryptoBrief) (po : ℚ) :
    ∀ notifs, ∀ q ∈ (checkCoinGo coin po notifs).1, q.1 = coin := by
  intro notifs
  induction notifs with
  | nil =>
    intro q hq
    simp [checkCoinGo] at hq
  | cons n rest ih =>
    intro q hq
    rw [checkCoinGo] at hq
    by_cases hsym : coin.symbol = n.symbol
    · rw [if_pos hsym] at hq
      cases hcall : call_is_between
          [PyVal.num n.price, PyVal.num coin.price, PyVal.num po, PyVal.str n.trigger] with
      | error e =>
        rw [hcall] at hq
        simp at hq
      | ok b =>
        rw [hcall] at hq
        cases b with
        | false => exact ih q hq
        | true =>
          cases hgo : checkCoinGo coin po rest with
          | mk fs err =>
            rw [hgo] at hq
            rcases List.mem_cons.mp hq with rfl | hmem
            · rfl
            · exact ih q (hgo ▸ hmem)
    · rw [if_neg hsym] at hq
      exact ih q hq

theorem checkCoin_fired_not_sentinel (c : CryptoBrief) (notifs : List AlertCrypto) :
    ∀ q ∈ (checkCoin c notifs).1,
      q.1 = c ∧ c.previous_price ≠ some (-1) ∧ c.previous_price ≠ none := by
  intro q hq
  cases hpp : c.previous_price with
  | none =>
    rw [checkCoin, hpp] at hq
    simp at hq
  | some po =>
    rw [checkCoin, hpp] at hq
    dsimp only at hq
    by_cases hpo : po = -1
    · rw [if_pos hpo] at hq
      simp at hq
    · rw [if_neg hpo] at hq
      refine ⟨checkCoinGo_fired_coin c po notifs q hq, ?_, by simp⟩
      intro hc
      exact hpo (Option.some_injective _ hc)

theorem on_check_fired_not_sentinel (notifs : List AlertCrypto) :
    ∀ coins, ∀ q ∈ (on_check_notifications notifs coins).1,
      q.1.previous_price ≠ some (-1) ∧ q.1.previous_price ≠ none := by
  intro coins
  induction coins with
  | nil =>
    intro q hq
    simp [on_check_notifications] at hq
  | cons c cs ih =>
    intro q hq
    rw [on_check_notifications] at hq
    cases hcc : checkCoin c notifs with
    | mk fs err =>
      rw [hcc] at hq
      cases err with
      | some e =>
        have := checkCoin_fired_not_sentinel c notifs q (by rw [hcc]; exact hq)
        exact ⟨this.1 ▸ this.2.1, this.1 ▸ this.2.2⟩
      | none =>
        cases hrest : on_check_notifications notifs cs with
        | mk fs2 err2 =>
          rw [hrest] at hq
          rcases List.mem_append.mp hq with hmem | hmem
          · have := checkCoin_fired_not_sentinel c notifs q (by rw [hcc]; exact hmem)
            exact ⟨this.1 ▸ this.2.1, this.1 ▸ this.2.2⟩
          · exact ih q (hrest ▸ hmem)

/-- C9: over every cache state, every symbol list handed to
`get_by_symbols` and every rule list, the alert evaluation never fires a
rule whose cached record has the sentinel (`-1`) or `None` as previous
price: filtering the fired pairs for such records always yields the
empty list (the line-105 `continue` skips them before any threshold
comparison). -/
theorem alert_evaluation_never_fires_sentinel (cache : List CryptoBrief)
    (syms : List String) (notifs : List AlertCrypto) :
    ((on_check_notifications notifs (get_by_symbols cache syms)).1.filter
      (fun q => decide (q.1.previous_price = some (-1)) ||
        decide (q.1.previous_price = none))) = [] := by
  rw [List.filter_eq_nil]
  intro q hq
  have h := on_check_fired_not_sentinel notifs (get_by_symbols cache syms) q hq
  simp [h.1, h.2]

/-! ## Claim theorems for the refresh error path -/

theorem refresh_once_list_fails (cache : List CryptoBrief)
    (env : Retried ListingsPayload) (cu : String)
    (h : fetchFails ListingsPayload.error_code env = true) :
    ∃ m, refresh_once_list cache env cu = .error m := by
  rw [fetchFails] at h
  cases hF : fetchWithRetry env with
  | error m =>
    rw [refresh_once_list, hF]
    exact ⟨m, rfl⟩
  | ok sp =>
    obtain ⟨s, p⟩ := sp
    rw [hF] at h
    dsimp only at h
    rw [refresh_once_list, hF]
    dsimp only
    by_cases h4 : 400 ≤ s
    · rw [if_pos h4]
      exact ⟨_, rfl⟩
    · have hec : p.error_code ≠ 0 := by
        simp only [Bool.or_eq_true, decide_eq_true_eq] at h
        tauto
      rw [if_neg h4, if_pos hec]
      exact ⟨_, rfl⟩

/-- C7: whenever the listing fetch fails — the request raises even after
the single 429 retry, the final response carries an HTTP error status,
or the payload reports an upstream error — `_refresh_once` raises and
the entire cache state (record tuple, symbol index, last-update
timestamp) is exactly what it was before the call: all three fields are
only ever written together, after every fallible step. -/
theorem refresh_failure_leaves_state_unchanged (st : CacheState)
    (env : Retried ListingsPayload) (cu : String) (now : ℚ)
    (h : fetchFails ListingsPayload.error_code env = true) :
    (refresh_once st env cu now).1 = st ∧
      (refresh_once st env cu now).2.isSome = true := by
  obtain ⟨m, hm⟩ := refresh_once_list_fails st.cache_data env cu h
  rw [refresh_once, hm]
  exact ⟨rfl, rfl⟩

/-- C7 witness: a network failure on both attempts leaves a one-record
cache state untouched and surfaces the error. -/
theorem refresh_failure_leaves_state_unchanged_witness :
    (refresh_once ⟨[btcCoin], buildIndex [btcCoin], 0⟩ noEnv "USD" 99).1 =
        ⟨[btcCoin], buildIndex [btcCoin], 0⟩ ∧
      (refresh_once ⟨[btcCoin], buildIndex [btcCoin], 0⟩ noEnv "USD" 99).2.isSome = true :=
  refresh_failure_leaves_state_unchanged ⟨[btcCoin], buildIndex [btcCoin], 0⟩
    noEnv "USD" 99 (by decide)

/-! ## Dict and index lemmas -/

theorem dictGet_dictInsert {α : Type} (m : List (String × α)) (k k' : String) (v : α) :
    dictGet (dictInsert m k v) k' = if k' = k then some v else dictGet m k' := by
  induction m with
  | nil =>
    simp only [dictInsert, dictGet]
    by_cases h : k' = k
    · rw [if_pos h.symm, if_pos h]
    · rw [if_neg (fun hh => h hh.symm), if_neg h]
  | cons p m ih =>
    by_cases hpk : p.1 = k
    · simp only [dictInsert, if_pos hpk, dictGet]
      by_cases h : k' = k
      · rw [if_pos h.symm, if_pos h]
      · rw [if_neg (fun hh => h hh.symm), if_neg h,
          if_neg (fun hh => h (hpk.symm.trans hh).symm)]
    · simp only [dictInsert, if_neg hpk, dictGet]
      by_cases h : p.1 = k'
      · rw [if_pos h, if_pos h, if_neg (fun hh => hpk (h.trans hh))]
      · rw [if_neg h, if_neg h, ih]

theorem mem_dictInsert {α : Type} {m : List (String × α)} {k : String} {v : α}
    {p : String × α} (hp : p ∈ dictInsert m k v) : p = (k, v) ∨ p ∈ m := by
  induction m with
  | nil =>
    rw [dictInsert] at hp
    exact Or.inl (List.mem_singleton.mp hp)
  | cons q m ih =>
    rw [dictInsert] at hp
    by_cases hq : q.1 = k
    · rw [if_pos hq] at hp
      rcases List.mem_cons.mp hp with rfl | hm
      · exact Or.inl rfl
      · exact Or.inr (List.mem_cons_of_mem _ hm)
    · rw [if_neg hq] at hp
      rcases List.mem_cons.mp hp with rfl | hm
      · exact Or.inr (List.mem_cons_self _ _)
      · rcases ih hm with h | h
        · exact Or.inl h
        · exact Or.inr (List.mem_cons_of_mem _ h)

theorem buildIndexFrom_append (i : ℕ) (m : List (String × ℕ))
    (l₁ l₂ : List CryptoBrief) :
    buildIndexFrom i m (l₁ ++ l₂) =
      buildIndexFrom (i + l₁.length) (buildIndexFrom i m l₁) l₂ := by
  induction l₁ generalizing i m with
  | nil => simp [buildIndexFrom]
  | cons c l ih =>
    rw [List.cons_append, buildIndexFrom, ih, buildIndexFrom]
    have harith : i + 1 + l.length = i + (c :: l).length := by
      rw [List.length_cons]
      omega
    rw [harith]

theorem dictGet_buildIndexFrom_of_not_mem (l : List CryptoBrief) (i : ℕ)
    (m : List (String × ℕ)) (s : String) (h : ∀ c ∈ l, c.symbol ≠ s) :
    dictGet (buildIndexFrom i m l) s = dictGet m s := by
  induction l generalizing i m with
  | nil => rfl
  | cons c l ih =>
    rw [buildIndexFrom, ih _ _ (fun c' hc' => h c' (List.mem_cons_of_mem _ hc')),
      dictGet_dictInsert, if_neg (fun hh => h c (List.mem_cons_self _ _) hh.symm)]

theorem dictGet_buildIndexFrom_values (l : List CryptoBrief) (i : ℕ)
    (m : List (String × ℕ)) (s : String) (j : ℕ)
    (hm : ∀ s' j', dictGet m s' = some j' → j' < i)
    (h : dictGet (buildIndexFrom i m l) s = some j) : j < i + l.length := by
  induction l generalizing i m with
  | nil => exact (hm s j h).trans_le (by simp)
  | cons c l ih =>
    rw [buildIndexFrom] at h
    have hm' : ∀ s' j', dictGet (dictInsert m c.symbol i) s' = some j' → j' < i + 1 := by
      intro s' j' hj'
      rw [dictGet_dictInsert] at hj'
      by_cases hc : s' = c.symbol
      · rw [if_pos hc] at hj'
        injection hj' with hj''
        omega
      · rw [if_neg hc] at hj'
        exact (hm s' j' hj').trans (by omega)
    have := ih _ _ hm' h
    rw [List.length_cons]
    omega

theorem indexGet_lt_length (cache : List CryptoBrief) (s : String) (j : ℕ)
    (h : dictGet (buildIndex cache) s = some j) : j < cache.length := by
  have := dictGet_buildIndexFrom_values cache 0 [] s j
    (fun s' j' h' => by cases h') h
  omega

theorem dictGet_buildIndexFrom_isSome_mono (l : List CryptoBrief) (i : ℕ)
    (m : List (String × ℕ)) (s : String) (h : (dictGet m s).isSome = true) :
    (dictGet (buildIndexFrom i m l) s).isSome = true := by
  induction l generalizing i m with
  | nil => exact h
  | cons c l ih =>
    rw [buildIndexFrom]
    apply ih
    rw [dictGet_dictInsert]
    by_cases hc : s = c.symbol
    · rw [if_pos hc]
      rfl
    · rw [if_neg hc]
      exact h

theorem indexGet_isSome_of_mem (cache : List CryptoBrief) (c : CryptoBrief)
    (hc : c ∈ cache) : (dictGet (buildIndex cache) c.symbol).isSome = true := by
  obtain ⟨l₁, l₂, rfl⟩ := List.append_of_mem hc
  rw [buildIndex, buildIndexFrom_append, buildIndexFrom]
  apply dictGet_buildIndexFrom_isSome_mono
  rw [dictGet_dictInsert, if_pos rfl]
  rfl

theorem symbol_ne_of_indexGet_none (cache : List CryptoBrief) (s : String)
    (h : dictGet (buildIndex cache) s = none) : ∀ c ∈ cache, c.symbol ≠ s := by
  intro c hc hcs
  have hs := indexGet_isSome_of_mem cache c hc
  rw [hcs, h] at hs
  cases hs

theorem exists_symbol_of_indexGet_some (cache : List CryptoBrief) (s : String)
    (j : ℕ) (h : dictGet (buildIndex cache) s = some j) :
    ∃ c ∈ cache, c.symbol = s := by
  by_contra hne
  push_neg at hne
  rw [buildIndex, dictGet_buildIndexFrom_of_not_mem _ _ _ _ hne] at h
  cases h

theorem cacheLookup_append (cache extras : List CryptoBrief) (s : String)
    (hex : ∀ e ∈ extras, e.symbol ≠ s) :
    cacheLookup (cache ++ extras) s = cacheLookup cache s := by
  have hidx : dictGet (buildIndex (cache ++ extras)) s = dictGet (buildIndex cache) s := by
    rw [buildIndex, buildIndex, buildIndexFrom_append,
      dictGet_buildIndexFrom_of_not_mem _ _ _ _ hex]
  rw [cacheLookup, cacheLookup, indexGet, indexGet, hidx]
  cases hg : dictGet (buildIndex cache) s with
  | none => rfl
  | some j =>
    have hj : j < cache.length := indexGet_lt_length cache s j hg
    rw [Option.some_bind, Option.some_bind, List.getElem?_append_left hj]

theorem cacheLookup_ne_nil (cache : List CryptoBrief) (s : String)
    (cb : CryptoBrief) (h : cacheLookup cache s = some cb) :
    cache.isEmpty = false := by
  cases cache with
  | nil => cases h
  | cons c cs => rfl

theorem cacheLookup_symbol_mem (cache : List CryptoBrief) (s : String)
    (cb : CryptoBrief) (h : cacheLookup cache s = some cb) :
    ∃ c ∈ cache, c.symbol = s := by
  rw [cacheLookup] at h
  obtain ⟨j, hj, _⟩ := Option.bind_eq_some.mp h
  exact exists_symbol_of_indexGet_some cache s j hj

/-! ## The cache never loses an existing record on the no-replace paths -/

theorem ensure_preserves_lookup (dc : String) (net : FindCoinNet)
    (cache : List CryptoBrief) (sd : SymbolData) (src lu s : String)
    (cb : CryptoBrief) (h : cacheLookup cache s = some cb) :
    cacheLookup (ensure_in_cache_from_symbol_data dc net cache sd src lu) s = some cb := by
  rw [ensure_in_cache_from_symbol_data]
  by_cases h1 : (indexGet cache (pyUpper sd.symbol)).isSome
  · rw [if_pos h1]
    exact h
  · rw [if_neg h1]
    cases hq : (if src = pyUpper dc then Except.ok (dictGet sd.quote (pyUpper dc))
        else net.ensureQuoteById) with
    | error e => exact h
    | ok o =>
      cases o with
      | none => exact h
      | some cp =>
        dsimp only
        rw [if_neg h1]
        refine (cacheLookup_append cache _ s ?_).trans h
        intro e he
        rw [List.mem_singleton.mp he]
        intro hes
        have hes' : pyUpper sd.symbol = s := hes
        apply h1
        rw [cacheLookup] at h
        obtain ⟨j, hj, _⟩ := Option.bind_eq_some.mp h
        rw [indexGet, hes']
        rw [indexGet] at hj
        rw [hj]
        rfl

theorem getBySymbolSt_of_nonempty (env : Retried ListingsPayload) (dc : String)
    (cache : List CryptoBrief) (su : String) (hne : cache.isEmpty = false) :
    getBySymbolSt env dc cache su =
      .ok (cache, if su = "" then none else cacheLookup cache su) := by
  rw [getBySymbolSt]
  by_cases hsu : su = ""
  · rw [if_pos hsu, if_pos hsu]
  · rw [if_neg hsu, if_neg hsu, ensureCacheB, hne]
    rfl

theorem find_coin_preserves_lookup (dc : String) (net : FindCoinNet)
    (env : Retried ListingsPayload) (tok : String) (cache : List CryptoBrief)
    (s : String) (cb : CryptoBrief) (h : cacheLookup cache s = some cb) :
    cacheLookup (find_coin dc net env tok cache).1 s = some cb := by
  have hne : cache.isEmpty = false := cacheLookup_ne_nil cache s cb h
  rw [find_coin]
  by_cases htok : tok = ""
  · rw [if_pos htok]
    exact h
  · rw [if_neg htok]
    simp only [ensureCacheB, hne, Bool.false_eq_true, if_false]
    rw [getBySymbolSt_of_nonempty env dc cache _ hne]
    by_cases hlk : pyUpper (pyLower (pyStrip tok)) = ""
    · rw [if_pos hlk]
      dsimp only
      repeat' first
        | exact h
        | exact ensure_preserves_lookup dc net cache _ _ _ s cb h
        | split
    · rw [if_neg hlk]
      cases hcl : cacheLookup cache (pyUpper (pyLower (pyStrip tok))) with
      | some found =>
        dsimp only
        exact h
      | none =>
        dsimp only
        repeat' first
          | exact h
          | exact ensure_preserves_lookup dc net cache _ _ _ s cb h
          | split

/-! ## The fallback loop of `add_symbols_to_cache` -/

theorem dataclassArgsOk_fallback_false :
    dataclassArgsOk fallbackCtorArgs cryptoBriefFields = false := by decide

theorem fallbackStep_cache (dc : String) (net : FindCoinNet)
    (env : Retried ListingsPayload) (pp : List (String × ℚ)) (tok : String)
    (st : List CryptoBrief × List (String × CryptoBrief) × Option ℚ) :
    (fallbackStep dc net env pp tok st).1.1 = (find_coin dc net env tok st.1).1 := by
  rw [fallbackStep]
  dsimp only
  cases (find_coin dc net env tok st.1).2 with
  | error e => rfl
  | ok o =>
    cases o with
    | none => rfl
    | some cb =>
      dsimp only
      cases st.2.2 with
      | none => rfl
      | some price =>
        dsimp only
        rw [dataclassArgsOk_fallback_false]
        rfl

theorem fallbackStep_items_unchanged (dc : String) (net : FindCoinNet)
    (env : Retried ListingsPayload) (pp : List (String × ℚ)) (tok : String)
    (st : List CryptoBrief × List (String × CryptoBrief) × Option ℚ) :
    (fallbackStep dc net env pp tok st).1.2.1 = st.2.1 := by
  rw [fallbackStep]
  dsimp only
  cases (find_coin dc net env tok st.1).2 with
  | error e => rfl
  | ok o =>
    cases o with
    | none => rfl
    | some cb =>
      dsimp only
      cases st.2.2 with
      | none => rfl
      | some price =>
        dsimp only
        rw [dataclassArgsOk_fallback_false]
        rfl

theorem fallbackLoop_items_unchanged (dc : String) (O : AddOracle)
    (pp : List (String × ℚ)) (toks : List String) :
    ∀ st, (fallbackLoop dc O pp toks st).1.2.1 = st.2.1 := by
  induction toks with
  | nil => intro st; rfl
  | cons tok rest ih =>
    intro st
    rw [fallbackLoop]
    have hitems := fallbackStep_items_unchanged dc (O.findNet tok) O.env pp tok st
    cases hstep : fallbackStep dc (O.findNet tok) O.env pp tok st with
    | mk st1 err =>
      rw [hstep] at hitems
      cases err with
      | some e => exact hitems
      | none => exact (ih st1).trans hitems

theorem fallbackLoop_preserves_lookup (dc : String) (O : AddOracle)
    (pp : List (String × ℚ)) (toks : List String) :
    ∀ st (s : String) (cb : CryptoBrief), cacheLookup st.1 s = some cb →
      cacheLookup (fallbackLoop dc O pp toks st).1.1 s = some cb := by
  induction toks with
  | nil => intro st s cb h; exact h
  | cons tok rest ih =>
    intro st s cb h
    rw [fallbackLoop]
    have hcache : cacheLookup (fallbackStep dc (O.findNet tok) O.env pp tok st).1.1 s =
        some cb := by
      rw [fallbackStep_cache]
      exact find_coin_preserves_lookup dc (O.findNet tok) O.env tok st.1 s cb h
    cases hstep : fallbackStep dc (O.findNet tok) O.env pp tok st with
    | mk st1 err =>
      rw [hstep] at hcache
      cases err with
      | some e => exact hcache
      | none => exact ih st1 s cb hcache

theorem fallbackLoop_result_lookup (dc : String) (O : AddOracle)
    (pp : List (String × ℚ)) (toks : List String)
    (st : List CryptoBrief × List (String × CryptoBrief) × Option ℚ)
    (res : (List CryptoBrief × List (String × CryptoBrief) × Option ℚ) × Option String)
    (hloop : fallbackLoop dc O pp toks st = res) (s : String) (cb : CryptoBrief)
    (h : cacheLookup st.1 s = some cb) : cacheLookup res.1.1 s = some cb :=
  hloop ▸ fallbackLoop_preserves_lookup dc O pp toks st s cb h

theorem fallbackLoop_result_items (dc : String) (O : AddOracle)
    (pp : List (String × ℚ)) (toks : List String)
    (st : List CryptoBrief × List (String × CryptoBrief) × Option ℚ)
    (res : (List CryptoBrief × List (String × CryptoBrief) × Option ℚ) × Option String)
    (hloop : fallbackLoop dc O pp toks st = res) : res.1.2.1 = st.2.1 :=
  hloop ▸ fallbackLoop_items_unchanged dc O pp toks st

/-! ## The commit loop of `add_symbols_to_cache` -/

theorem commitStep_preserves (st : List CryptoBrief × List (String × ℕ))
    (kv : String × CryptoBrief) (hsym : kv.2.symbol = kv.1)
    (s : String) (cb : CryptoBrief)
    (h1 : cacheLookup st.1 s = some cb)
    (h2 : ∀ k, dictGet st.2 k = none → ∀ e ∈ st.1, e.symbol ≠ k) :
    cacheLookup (commitStep false st kv).1 s = some cb ∧
      (∀ k, dictGet (commitStep false st kv).2 k = none →
        ∀ e ∈ (commitStep false st kv).1, e.symbol ≠ k) := by
  rw [commitStep]
  cases hdg : dictGet st.2 kv.1 with
  | some pos => exact ⟨h1, h2⟩
  | none =>
    dsimp only
    constructor
    · have hk_ne : kv.1 ≠ s := by
        intro hks
        obtain ⟨c, hc, hcs⟩ := cacheLookup_symbol_mem st.1 s cb h1
        exact h2 kv.1 hdg c hc (hcs.trans hks.symm)
      rw [cacheLookup_append st.1 [kv.2] s
        (fun e he => by rw [List.mem_singleton.mp he, hsym]; exact hk_ne)]
      exact h1
    · intro k hk e he
      rw [dictGet_dictInsert] at hk
      by_cases hkk : k = kv.1
      · rw [if_pos hkk] at hk
        cases hk
      · rw [if_neg hkk] at hk
        rcases List.mem_append.mp he with he1 | he1
        · exact h2 k hk e he1
        · rw [List.mem_singleton.mp he1, hsym]
          exact fun hh => hkk hh.symm

theorem commitItems_fold_keeps (items : List (String × CryptoBrief))
    (hsym : ∀ kv ∈ items, kv.2.symbol = kv.1) :
    ∀ (st : List CryptoBrief × List (String × ℕ)) (s : String) (cb : CryptoBrief),
      cacheLookup st.1 s = some cb →
      (∀ k, dictGet st.2 k = none → ∀ e ∈ st.1, e.symbol ≠ k) →
      cacheLookup (items.foldl (commitStep false) st).1 s = some cb := by
  induction items with
  | nil => intro st s cb h1 _; exact h1
  | cons kv items ih =>
    intro st s cb h1 h2
    rw [List.foldl_cons]
    obtain ⟨h1', h2'⟩ :=
      commitStep_preserves st kv (hsym kv (List.mem_cons_self _ _)) s cb h1 h2
    exact ih (fun q hq => hsym q (List.mem_cons_of_mem _ hq)) _ s cb h1' h2'

theorem commitItems_keeps_existing (cache : List CryptoBrief)
    (items : List (String × CryptoBrief)) (s : String) (cb : CryptoBrief)
    (hsym : ∀ kv ∈ items, kv.2.symbol = kv.1)
    (h : cacheLookup cache s = some cb) :
    cacheLookup (commitItems cache items false) s = some cb := by
  rw [commitItems]
  exact commitItems_fold_keeps items hsym (cache, buildIndex cache) s cb h
    (fun k hk => symbol_ne_of_indexGet_none cache k hk)

/-! ## The batch step only produces records keyed by their own symbol -/

theorem batchAccum_foldl_symbol (du : String) (pp : List (String × ℚ))
    (rows : List (String × SymbolData)) :
    ∀ acc, (∀ kv ∈ acc.1, kv.2.symbol = kv.1) →
      ∀ kv ∈ (rows.foldl (batchAccum du pp) acc).1, kv.2.symbol = kv.1 := by
  induction rows with
  | nil => intro acc hacc; exact hacc
  | cons r rows ih =>
    intro acc hacc
    rw [List.foldl_cons]
    apply ih
    intro kv hkv
    rw [batchAccum] at hkv
    cases hq : dictGet r.2.quote du with
    | none =>
      rw [hq] at hkv
      exact hacc kv hkv
    | some price =>
      rw [hq] at hkv
      dsimp only at hkv
      rcases mem_dictInsert hkv with rfl | hm
      · rfl
      · exact hacc kv hm

theorem batchStep_items_symbol (du : String) (pp : List (String × ℚ))
    (prob : List String) (batch : Retried QuotesPayload)
    (items : List (String × CryptoBrief)) (found : List String) (pv : Option ℚ)
    (h : batchStep du pp prob batch = .ok (items, found, pv)) :
    ∀ kv ∈ items, kv.2.symbol = kv.1 := by
  rw [batchStep] at h
  by_cases hp : prob.isEmpty
  · rw [if_pos hp] at h
    injection h with h'
    have hit : items = [] := (congrArg (fun x => x.1) h').symm
    intro kv hkv
    rw [hit] at hkv
    cases hkv
  · rw [if_neg hp] at h
    cases hF : fetchWithRetry batch with
    | error m =>
      rw [hF] at h
      cases h
    | ok sp =>
      obtain ⟨st, p⟩ := sp
      rw [hF] at h
      dsimp only at h
      by_cases h4 : 400 ≤ st
      · rw [if_pos h4] at h
        cases h
      · rw [if_neg h4] at h
        by_cases hec : p.error_code ≠ 0
        · rw [if_pos hec] at h
          cases h
        · rw [if_neg hec] at h
          injection h with h'
          have hit : items = (p.data.foldl (batchAccum du pp) ([], [], none)).1 :=
            (congrArg (fun x => x.1) h').symm
          intro kv hkv
          rw [hit] at hkv
          exact batchAccum_foldl_symbol du pp p.data ([], [], none)
            (fun kv hkv => by cases hkv) kv hkv

/-! ## Claim theorems for the upsert paths -/

/-- C10: whenever a token is resolved only through the `find_coin`
fallback of `add_symbols_to_cache`, the fallback body always raises —
`NameError` when the batch loop never bound the local `price`, else
`TypeError` from the `CryptoBrief(...)` call that omits the required
`previous_price` field — and never adds the resolved coin to the
pending upsert items.  The final conjunct records the field-list
violation itself. -/
theorem fallback_resolution_always_raises (dc : String) (net : FindCoinNet)
    (env : Retried ListingsPayload) (pp : List (String × ℚ)) (tok : String)
    (st : List CryptoBrief × List (String × CryptoBrief) × Option ℚ)
    (cb : CryptoBrief)
    (hres : (find_coin dc net env tok st.1).2 = Except.ok (some cb)) :
    (fallbackStep dc net env pp tok st).2.isSome = true ∧
      (fallbackStep dc net env pp tok st).1.2.1 = st.2.1 ∧
      dataclassArgsOk fallbackCtorArgs cryptoBriefFields = false := by
  refine ⟨?_, fallbackStep_items_unchanged dc net env pp tok st,
    dataclassArgsOk_fallback_false⟩
  rw [fallbackStep]
  dsimp only
  rw [hres]
  dsimp only
  cases st.2.2 with
  | none => rfl
  | some price =>
    dsimp only
    rw [dataclassArgsOk_fallback_false]
    rfl

/-- C10 witness: token "BTC" resolves (here via the cache), and the
fallback step raises instead of upserting. -/
theorem fallback_resolution_always_raises_witness :
    (find_coin "USD" noNet noEnv "BTC" [btcCoin]).2 = Except.ok (some btcCoin) ∧
      ((fallbackStep "USD" noNet noEnv [] "BTC" ([btcCoin], [], none)).2.isSome = true ∧
        (fallbackStep "USD" noNet noEnv [] "BTC" ([btcCoin], [], none)).1.2.1 = [] ∧
        dataclassArgsOk fallbackCtorArgs cryptoBriefFields = false) :=
  ⟨by decide,
   fallback_resolution_always_raises "USD" noNet noEnv [] "BTC"
     ([btcCoin], [], none) btcCoin (by decide)⟩

/-- C8: an upsert with `replace_existing=False` never disturbs an
existing record: whatever `add_symbols_to_cache` does (succeed, skip, or
raise on the broken fallback), a symbol already present in the cache
still resolves to exactly its original record afterwards. -/
theorem add_symbols_no_replace_keeps_existing (O : AddOracle) (dc : String)
    (symbols : List String) (cache : List CryptoBrief) (s : String)
    (cb : CryptoBrief) (h : cacheLookup cache s = some cb) :
    cacheLookup (add_symbols_to_cache O dc symbols false cache).1 s = some cb := by
  have hne : cache.isEmpty = false := cacheLookup_ne_nil cache s cb h
  rw [add_symbols_to_cache]
  split
  · simp only [ensureCacheB, hne, Bool.false_eq_true, if_false]
    exact h
  · simp only [ensureCacheB, hne, Bool.false_eq_true, if_false]
    split
    · simp only [ensureCacheB, hne, Bool.false_eq_true, if_false]
      exact h
    · split
      · exact h
      · rename_i items0 found0 pv0 hbatch
        split
        · rename_i c1 x2 x3 e hloop
          exact fallbackLoop_result_lookup _ _ _ _ _ _ hloop s cb h
        · rename_i c1 items x3 hloop
          have hlk := fallbackLoop_result_lookup _ _ _ _ _ _ hloop s cb h
          have hitems : items = items0 := fallbackLoop_result_items _ _ _ _ _ _ hloop
          have hc1ne : c1.isEmpty = false := cacheLookup_ne_nil c1 s cb hlk
          split
          · simp only [ensureCacheB, hc1ne, Bool.false_eq_true, if_false]
            exact hlk
          · exact commitItems_keeps_existing c1 items s cb
              (hitems ▸ batchStep_items_symbol _ _ _ _ _ _ _ hbatch) hlk

/-- C8 witness: upserting ["BTC", "new"] with `replace_existing=False`
into a cache holding a BTC record leaves that record in place ("BTC" is
already cached and is skipped; "new" hits the failing network and the
call raises with the cache unchanged). -/
theorem add_symbols_no_replace_keeps_existing_witness :
    cacheLookup [btcCoin] "BTC" = some btcCoin ∧
      cacheLookup (add_symbols_to_cache noOracle "USD" ["BTC", "new"] false [btcCoin]).1
        "BTC" = some btcCoin :=
  ⟨by decide,
   add_symbols_no_replace_keeps_existing noOracle "USD" ["BTC", "new"] [btcCoin]
     "BTC" btcCoin (by decide)⟩

end CryptoNotify
